import Mathlib

/-!
Verification of the Korean TTS text-normalization front-end of this
repository (file `model_making/TTS/dataset.py`): the numeral expander
(`get_number_of_digits`, `convert_number`), the Hangul decomposer
(`decompose_hangul`), the normalization pipeline (`prep_text`) and the
sequencer (`text_to_sequence`, `sequence_to_text`).

Python exceptions are modelled by an `Except PyErr` result: `assertError`
models a failing `assert`, `indexError` a list index out of range, and
`hgtkError` the exception the external `hgtk` library raises when asked to
compose an invalid jamo group.  Strings are modelled as `List Char`
(Python iterates over code points, which `List Char` matches).
-/

namespace TTSDataset

/-- Failure modes of the embedded Python code. -/
inductive PyErr where
  | assertError
  | indexError
  | hgtkError
deriving DecidableEq

instance exceptDecEq {ε α : Type} [DecidableEq ε] [DecidableEq α] :
    DecidableEq (Except ε α) := fun x y =>
  match x, y with
  | .ok a, .ok b =>
    if h : a = b then isTrue (by rw [h]) else isFalse (by simp [h])
  | .error e, .error f =>
    if h : e = f then isTrue (by rw [h]) else isFalse (by simp [h])
  | .ok _, .error _ => isFalse (by simp)
  | .error _, .ok _ => isFalse (by simp)

/-- Modelled from the spec: the digit-word table `symbols.digits` of the
`symbols` module (not under `src/`): "digit/special-jamo lookup tables",
with a zero word at index 0 ("return the zero digit word").  Standard
Sino-Korean digit readings. -/
def symbols_digits : List String :=
  ["영", "일", "이", "삼", "사", "오", "육", "칠", "팔", "구"]

/-- Modelled from the spec: the magnitude-word table
`symbols.number_of_digits` of the `symbols` module (not under `src/`):
"ones, tens/십, hundred/백, thousand/천, and higher groups of four:
만, 억, …" together with 조 named by the spec's grouping convention. -/
def number_of_digits : List String :=
  ["십", "백", "천", "만", "억", "조"]

/-- Python list indexing `l[n]` (non-negative index): `IndexError` when out
of range.  The result is returned as a character list. -/
def idxE (l : List String) (n : Nat) : Except PyErr (List Char) :=
  match l.get? n with
  | some w => .ok w.data
  | none => .error .indexError

/-- Embedding of `get_number_of_digits` (dataset.py lines 24-34): the
`assert i != 0` precondition, then the direct / combined magnitude-word
lookup. -/
def get_number_of_digits (i : Nat) : Except PyErr (List Char) :=
  if i = 0 then .error .assertError
  else if i < 4 then idxE number_of_digits (i - 1)
  else if i % 4 = 0 then idxE number_of_digits (i / 4 + 2)
  else do
    let a ← idxE number_of_digits (i % 4 - 1)
    let b ← idxE number_of_digits (i / 4 + 2)
    .ok (a ++ b)

/-- Numeric value of a decimal digit character, `int(n)` in the source. -/
def digitVal (c : Char) : Nat := c.toNat - 48

/-- Per-digit contribution of the loop body of `convert_number`
(dataset.py lines 43-54); `none` models the `continue` for a 0 digit. -/
def walk_part (i n : Nat) : Except PyErr (Option (List Char)) :=
  if n = 0 then .ok none
  else if i = 0 then do .ok (some (← idxE symbols_digits n))
  else if n = 1 then do .ok (some (← get_number_of_digits i))
  else do .ok (some ((← idxE symbols_digits n) ++ (← get_number_of_digits i)))

/-- The accumulation loop of `convert_number`: walks the reversed digit
string with positions counted from `i`, collecting the non-skipped
contributions in walk order (`number_list` in the source). -/
def convert_walk : List Char → Nat → Except PyErr (List (List Char))
  | [], _ => .ok []
  | c :: rest, i => do
    let part ← walk_part i (digitVal c)
    let tail ← convert_walk rest (i + 1)
    .ok (match part with
      | none => tail
      | some w => w :: tail)

/-- Concatenation of a list of character lists, `"".join` in the source. -/
def concatAll (l : List (List Char)) : List Char := l.foldr (· ++ ·) []

/-- Embedding of `convert_number` (dataset.py lines 36-56): strip leading
zeros, reverse, return the zero word if nothing remains, otherwise walk the
digits least-significant first and join the contributions in reverse
accumulation order. -/
def convert_number (s : List Char) : Except PyErr (List Char) :=
  let stripped := s.dropWhile (· = '0')
  let rev := stripped.reverse
  if rev.isEmpty then idxE symbols_digits 0
  else do
    let parts ← convert_walk rev 0
    .ok (concatAll parts.reverse)

/-! Hangul decomposition.  The source uses the external `hgtk` library to
compose jamo groups into syllables and `unicodedata.normalize('NFKD', c)`
to decompose syllables; both are deterministic arithmetic over Unicode's
Hangul composition scheme (base 0xAC00, 21 vowels x 28 trailing states per
leading consonant) and are embedded as such. -/

/-- Character class of the regex `[가-힣ㄱ-ㅎㅏ-ㅣ]` (dataset.py line 61):
composed syllables, compatibility consonants, compatibility vowels. -/
def isHangulChar (c : Char) : Bool :=
  (44032 ≤ c.toNat && c.toNat ≤ 55203) ||
  (12593 ≤ c.toNat && c.toNat ≤ 12622) ||
  (12623 ≤ c.toNat && c.toNat ≤ 12643)

/-- Character class of the regex `[ㄱ-ㅎ]` (compatibility consonants). -/
def isCompatCons (c : Char) : Bool :=
  12593 ≤ c.toNat && c.toNat ≤ 12622

/-- Character class of the regex `[ㅏ-ㅣ]` (compatibility vowels). -/
def isCompatVowel (c : Char) : Bool :=
  12623 ≤ c.toNat && c.toNat ≤ 12643

/-- The 19 leading consonants in Unicode order, as compatibility jamo:
hgtk's table of valid syllable-leading consonants. -/
def CHO_COMPAT : List Char :=
  ['ㄱ', 'ㄲ', 'ㄴ', 'ㄷ', 'ㄸ', 'ㄹ', 'ㅁ', 'ㅂ', 'ㅃ', 'ㅅ',
   'ㅆ', 'ㅇ', 'ㅈ', 'ㅉ', 'ㅊ', 'ㅋ', 'ㅌ', 'ㅍ', 'ㅎ']

/-- The 27 trailing consonants in Unicode order (trailing indices 1-27),
as compatibility jamo: hgtk's table of valid syllable-trailing consonants. -/
def JONG_COMPAT : List Char :=
  ['ㄱ', 'ㄲ', 'ㄳ', 'ㄴ', 'ㄵ', 'ㄶ', 'ㄷ', 'ㄹ', 'ㄺ', 'ㄻ', 'ㄼ', 'ㄽ', 'ㄾ',
   'ㄿ', 'ㅀ', 'ㅁ', 'ㅂ', 'ㅄ', 'ㅅ', 'ㅆ', 'ㅇ', 'ㅈ', 'ㅊ', 'ㅋ', 'ㅌ', 'ㅍ', 'ㅎ']

/-- Index of a character in a list (first occurrence). -/
def charIdx (l : List Char) (c : Char) : Option Nat :=
  match l with
  | [] => none
  | x :: rest => if x = c then some 0 else (charIdx rest c).map (· + 1)

/-- Leading-consonant index of a compatibility consonant (0-18). -/
def choIdx (c : Char) : Option Nat := charIdx CHO_COMPAT c

/-- Vowel index of a compatibility vowel (0-20; the compatibility vowel
block 0x314F-0x3163 is in Unicode vowel order). -/
def vowelIdx (c : Char) : Option Nat :=
  if 12623 ≤ c.toNat && c.toNat ≤ 12643 then some (c.toNat - 12623) else none

/-- Trailing-consonant index of a compatibility consonant (1-27). -/
def jongIdx (c : Char) : Option Nat := (charIdx JONG_COMPAT c).map (· + 1)

/-- Arithmetic composition of a syllable from leading, vowel and trailing
indices: code point 0xAC00 + 588l + 28v + t. -/
def composeSyl (l v t : Nat) : Char := Char.ofNat (44032 + 588 * l + 28 * v + t)

/-- Composition of one jamo group, as `hgtk.letter.compose` does: a group
is leading + vowel or leading + vowel + trailing; anything else (including
a consonant that cannot lead a syllable) raises in hgtk, modelled as
`hgtkError`. -/
def hgtkComposeGroup (g : List Char) : Except PyErr (List Char) :=
  match g with
  | [l, v] =>
    match choIdx l, vowelIdx v with
    | some li, some vi => .ok [composeSyl li vi 0]
    | _, _ => .error .hgtkError
  | [l, v, t] =>
    match choIdx l, vowelIdx v, jongIdx t with
    | some li, some vi, some ti => .ok [composeSyl li vi ti]
    | _, _, _ => .error .hgtkError
  | _ => .error .hgtkError

/-- The accumulation loop of `hgtk.text.compose(-, compose_code=" ")`:
jamo queue up (the queue is kept reversed), each `' '` terminates and
composes the pending group. -/
def hgtkComposeGo : List Char → List Char → Except PyErr (List Char)
  | [], _ => .ok []
  | c :: rest, queue =>
    if c = ' ' then
      if queue.isEmpty then hgtkComposeGo rest []
      else do
        let s ← hgtkComposeGroup queue.reverse
        let t ← hgtkComposeGo rest []
        .ok (s ++ t)
    else hgtkComposeGo rest (c :: queue)

/-- Embedding of `hgtk.text.compose(-, compose_code=" ")`. -/
def hgtkCompose (l : List Char) : Except PyErr (List Char) := hgtkComposeGo l []

/-- Embedding of `unicodedata.normalize('NFKD', c)` on the characters this
code feeds it: a composed Hangul syllable decomposes arithmetically into
its conjoining jamo (trailing suppressed when its index is 0); the only
other characters reaching it here (ASCII, punctuation) are NFKD-inert and
pass through. -/
def nfkdChar (c : Char) : List Char :=
  if 44032 ≤ c.toNat && c.toNat ≤ 55203 then
    let off := c.toNat - 44032
    [Char.ofNat (4352 + off / 588), Char.ofNat (4449 + off % 588 / 28)] ++
      (if off % 28 = 0 then [] else [Char.ofNat (4519 + off % 28)])
  else [c]

/-- NFKD of a character list, character by character (the `for c in hangul`
loop of dataset.py line 85). -/
def nfkdStr (l : List Char) : List Char := l.foldr (fun c acc => nfkdChar c ++ acc) []

/-- Modelled from the spec: the irregular-name table `symbols.special_ja`
of the `symbols` module (not under `src/`): "a small lookup table of fully
irregular consonant names (those that do not follow the doubling
convention) overrides this synthesis entirely".  The doubled consonants
and the cluster consonants have such irregular conventional names. -/
def special_ja : List (Char × String) :=
  [('ㄲ', "쌍기역"), ('ㄸ', "쌍디귿"), ('ㅃ', "쌍비읍"), ('ㅆ', "쌍시옷"), ('ㅉ', "쌍지읒"),
   ('ㄳ', "기역시옷"), ('ㄵ', "니은지읒"), ('ㄶ', "니은히읗"), ('ㄺ', "리을기역"),
   ('ㄻ', "리을미음"), ('ㄼ', "리을비읍"), ('ㄽ', "리을시옷"), ('ㄾ', "리을티읕"),
   ('ㄿ', "리을피읖"), ('ㅀ', "리을히읗"), ('ㅄ', "비읍시옷")]

/-- Dictionary lookup in `special_ja` (`hangul in symbols.special_ja`). -/
def lookupSpecial (c : Char) : Option String :=
  (special_ja.find? (fun p => p.1 = c)).map (·.2)

/-- The `middle` string of the isolated-consonant branch (dataset.py lines
68-74): default `"ㅣ ㅇㅡ"`, overridden for ㄱ, ㄷ and ㅅ. -/
def naming_middle (c : Char) : List Char :=
  if c = 'ㄱ' then "ㅣ ㅇㅕ".data
  else if c = 'ㄷ' then "ㅣ ㄱㅡ".data
  else if c = 'ㅅ' then "ㅣ ㅇㅗ".data
  else "ㅣ ㅇㅡ".data

/-- Per-character step of `decompose_hangul` (dataset.py lines 60-85):
non-Hangul characters pass through; an isolated consonant is replaced by
its irregular name or its composed naming syllables; an isolated vowel is
composed with the silent consonant ㅇ; the resulting string (or the
original syllable) is NFKD-decomposed. -/
def decomposeChar (c : Char) : Except PyErr (List Char) :=
  if !isHangulChar c then .ok [c]
  else if isCompatCons c then
    match lookupSpecial c with
    | some w => .ok (nfkdStr w.data)
    | none => do
      let composed ← hgtkCompose ((c :: naming_middle c) ++ [c, ' '])
      .ok (nfkdStr composed)
  else if isCompatVowel c then do
    let composed ← hgtkCompose ['ㅇ', c, ' ']
    .ok (nfkdStr composed)
  else .ok (nfkdStr [c])

/-- Embedding of `decompose_hangul` (dataset.py lines 58-86): concatenation
of the per-character decompositions, left to right. -/
def decompose_hangul : List Char → Except PyErr (List Char)
  | [] => .ok []
  | c :: rest => do
    let h ← decomposeChar c
    let t ← decompose_hangul rest
    .ok (h ++ t)

/-! The normalization pipeline `prep_text` (dataset.py lines 89-104). -/

/-- Python `str.lower()` on the characters relevant here (ASCII case
mapping; every character surviving the later class filter is unaffected by
non-ASCII case mapping). -/
def pyLower (l : List Char) : List Char := l.map Char.toLower

/-- Whitespace class of Python `\s` / `str.strip()` on the characters
relevant here. -/
def isWs (c : Char) : Bool := c.isWhitespace

/-- Python `str.strip()`: drop leading and trailing whitespace. -/
def pyStrip (l : List Char) : List Char :=
  ((l.dropWhile isWs).reverse.dropWhile isWs).reverse

/-- One literal pattern replacement, `re.sub` restricted to the
single-character literal patterns of the modelled conversion-rule table. -/
def replaceChar (pat : Char) (rep : List Char) : List Char → List Char
  | [] => []
  | c :: rest =>
    if c = pat then rep ++ replaceChar pat rep rest
    else c :: replaceChar pat rep rest

/-- Modelled from the spec: the conversion-rule table
`symbols.convert_symbols` of the `symbols` module (not under `src/`):
"a pair (pattern, replacement) applied in a fixed priority order",
handling "abbreviations, symbol pronunciations, and punctuation
normalization".  A representative literal rule over a one-character
pattern. -/
def convert_symbols : List (Char × String) := [('%', "퍼센트")]

/-- The conversion-rule loop of `prep_text` (dataset.py lines 93-94). -/
def applyRules (l : List Char) : List Char :=
  convert_symbols.foldl (fun acc p => replaceChar p.1 p.2.data acc) l

/-- Modelled from the spec: the per-letter pronunciation table
`symbols.alpha_pron` of the `symbols` module (not under `src/`): "replace
each ASCII letter with its configured pronunciation spelling (a per-letter
lookup)".  Standard Korean renderings of the English letter names. -/
def alpha_pron (c : Char) : String :=
  if c = 'a' then "에이" else if c = 'b' then "비" else if c = 'c' then "시"
  else if c = 'd' then "디" else if c = 'e' then "이" else if c = 'f' then "에프"
  else if c = 'g' then "지" else if c = 'h' then "에이치" else if c = 'i' then "아이"
  else if c = 'j' then "제이" else if c = 'k' then "케이" else if c = 'l' then "엘"
  else if c = 'm' then "엠" else if c = 'n' then "엔" else if c = 'o' then "오"
  else if c = 'p' then "피" else if c = 'q' then "큐" else if c = 'r' then "알"
  else if c = 's' then "에스" else if c = 't' then "티" else if c = 'u' then "유"
  else if c = 'v' then "브이" else if c = 'w' then "더블유" else if c = 'x' then "엑스"
  else if c = 'y' then "와이" else if c = 'z' then "제트" else ""

/-- The alphabet-substitution step `re.sub("[a-z]", ...)` (line 97). -/
def alphaSub (l : List Char) : List Char :=
  l.foldr (fun c acc => if 'a' ≤ c && c ≤ 'z' then (alpha_pron c).data ++ acc else c :: acc) []

/-- The scan of `re.sub("[0-9]+", convert_number, text)` (line 99): the
pending maximal digit run is accumulated (kept reversed) and flushed
through the numeral expander at its end. -/
def subNumbersGo : List Char → List Char → Except PyErr (List Char)
  | [], run =>
    if run.isEmpty then .ok []
    else convert_number run.reverse
  | c :: rest, run =>
    if c.isDigit then subNumbersGo rest (c :: run)
    else if run.isEmpty then do
      let t ← subNumbersGo rest []
      .ok (c :: t)
    else do
      let w ← convert_number run.reverse
      let t ← subNumbersGo rest []
      .ok (w ++ c :: t)

/-- The numeral-substitution step `re.sub("[0-9]+", convert_number, text)`
(line 99): each maximal run of decimal digits is replaced by the numeral
expander's output. -/
def subNumbers (l : List Char) : Except PyErr (List Char) := subNumbersGo l []

/-- The scan of `re.sub("\s+", " ", text)` (line 101); the flag records
whether the previous character was whitespace (run already emitted). -/
def collapseWsGo : List Char → Bool → List Char
  | [], _ => []
  | c :: rest, inRun =>
    if isWs c then
      if inRun then collapseWsGo rest true
      else ' ' :: collapseWsGo rest true
    else c :: collapseWsGo rest false

/-- The whitespace-collapsing step `re.sub("\s+", " ", text)` (line 101):
each maximal whitespace run becomes a single space. -/
def collapseWs (l : List Char) : List Char := collapseWsGo l false

/-- Character class kept by the filter
`re.sub("[^0-9a-z가-힣ㄱ-ㅎㅏ-ㅣ ,.?!]", "", text)` (line 102). -/
def isAllowedIn (c : Char) : Bool :=
  c.isDigit || ('a' ≤ c && c ≤ 'z') || isHangulChar c ||
  c = ' ' || c = ',' || c = '.' || c = '?' || c = '!'

/-- Embedding of `prep_text` (dataset.py lines 89-104): lowercase and
strip, conversion rules, optional alphabet substitution, optional numeral
expansion, whitespace collapsing, character-class filter, Hangul
decomposition. -/
def prep_text (text : String) (conv_alpha : Bool) (conv_number : Bool) :
    Except PyErr (List Char) := do
  let t0 := pyStrip (pyLower text.data)
  let t1 := applyRules t0
  let t2 := if conv_alpha then alphaSub t1 else t1
  let t3 ← if conv_number then subNumbers t2 else .ok t2
  let t4 := collapseWs t3
  let t5 := t4.filter isAllowedIn
  decompose_hangul t5

/-! The sequencer (dataset.py lines 20-21 and 106-111). -/

/-- Modelled from the spec: the vocabulary `symbols.symbols` of the
`symbols` module (not under `src/`): "an ordered, de-duplicated sequence
of symbols defining the model's vocabulary" whose symbols are "a
punctuation mark, an ASCII letter/digit, or a single jamo (leading
consonant, vowel, or trailing consonant)" — i.e. exactly the characters
the normalizer can emit: space, punctuation, digits, lowercase letters and
the conjoining jamo produced by decomposition. -/
def symbols_list : List Char :=
  " ,.?!0123456789abcdefghijklmnopqrstuvwxyz".data ++
  (List.range 19).map (fun n => Char.ofNat (4352 + n)) ++
  (List.range 21).map (fun n => Char.ofNat (4449 + n)) ++
  (List.range 27).map (fun n => Char.ofNat (4520 + n))

/-- The symbol-to-id dictionary `_symbol_to_id` (line 20): a Python dict
comprehension over `enumerate`, so for a duplicated symbol the last index
wins. -/
def sym2id (c : Char) : Option Nat :=
  ((symbols_list.enum.reverse.find? (fun p => p.2 = c)).map Prod.fst)

/-- The id-to-symbol dictionary `_id_to_symbol` (line 21). -/
def id2sym (i : Nat) : Option Char := symbols_list.get? i

/-- The lookup stage of `text_to_sequence` (line 108): symbols absent from
the table are skipped. -/
def lookup_ids (l : List Char) : List Nat := l.filterMap sym2id

/-- Modelled from the spec: the configuration flag `hps.convert_alpha`
(the `hparams` module is not under `src/`); the spec leaves the static
configuration value open, so the source's own `prep_text` default
(`conv_alpha: bool = False`) is used. -/
def hps_convert_alpha : Bool := false

/-- Modelled from the spec: the configuration flag `hps.convert_number`
(the `hparams` module is not under `src/`); the source's own `prep_text`
default (`conv_number: bool = False`) is used. -/
def hps_convert_number : Bool := false

/-- Embedding of `text_to_sequence` (dataset.py lines 106-108). -/
def text_to_sequence (text : String) : Except PyErr (List Nat) := do
  let p ← prep_text text hps_convert_alpha hps_convert_number
  .ok (lookup_ids p)

/-- Embedding of `sequence_to_text` (dataset.py lines 110-111): ids absent
from the table are skipped. -/
def sequence_to_text (ids : List Nat) : String :=
  String.mk (ids.filterMap id2sym)

/-! Claim-side definitions: restatements of the specification's wording, to
be compared with the embeddings above. -/

/-- Specification reading of the base word for a digit-group position:
"position 0 has no magnitude word", positions 1-3 index the table
directly. -/
def base_word (j : Nat) : Except PyErr (List Char) :=
  if j = 0 then .ok [] else idxE number_of_digits (j - 1)

/-- Specification reading of the magnitude word for a position at least 4:
"combines a base word for (position mod 4) with a higher-order magnitude
word for (position div 4)". -/
def magnitude_spec (i : Nat) : Except PyErr (List Char) := do
  let b ← base_word (i % 4)
  let h ← idxE number_of_digits (i / 4 + 2)
  .ok (b ++ h)

/-- Specification reading of a single digit's contribution at position
`i`: nothing for 0; the digit word unconditionally at the ones place; the
magnitude word alone for 1 elsewhere; digit word plus magnitude word
otherwise. -/
def contribution_spec (c : Char) (i : Nat) : Except PyErr (List Char) :=
  let n := digitVal c
  if n = 0 then .ok []
  else if i = 0 then idxE symbols_digits n
  else if n = 1 then get_number_of_digits i
  else do
    let a ← idxE symbols_digits n
    let b ← get_number_of_digits i
    .ok (a ++ b)

/-- Specification reading of the result assembly: the per-position
contributions concatenated in most-significant-to-least-significant order;
the head of the remaining digit list sits at position `off + rest.length`. -/
def assembleMSB : List Char → Nat → Except PyErr (List Char)
  | [], _ => .ok []
  | c :: rest, off => do
    let w ← contribution_spec c (off + rest.length)
    let t ← assembleMSB rest off
    .ok (w ++ t)

/-- Specification reading of the whole numeral expander: strip leading
zeros, emit the zero word exactly once when nothing remains, otherwise
assemble the contributions most-significant first. -/
def convert_number_spec (s : List Char) : Except PyErr (List Char) :=
  let ds := s.dropWhile (· = '0')
  if ds.isEmpty then idxE symbols_digits 0
  else assembleMSB ds 0

/-- Standard Unicode Hangul decomposition of a syllable code point, as the
specification states it: leading index `off / 588`, vowel index
`off % 588 / 28`, trailing index `off % 28`, the trailing symbol
suppressed at index 0. -/
def unicode_decomp (n : Nat) : List Char :=
  [Char.ofNat (4352 + (n - 44032) / 588), Char.ofNat (4449 + (n - 44032) % 588 / 28)] ++
    (if (n - 44032) % 28 = 0 then [] else [Char.ofNat (4519 + (n - 44032) % 28)])

/-- Inverse of the fixed-arithmetic decomposition scheme: recompose 2 or 3
conjoining jamo into the syllable code point
`0xAC00 + 588l + 28v + t`. -/
def compose_jamo (d : List Char) : Option Char :=
  match d with
  | [l, v] =>
    if 4352 ≤ l.toNat && l.toNat ≤ 4370 && 4449 ≤ v.toNat && v.toNat ≤ 4469 then
      some (Char.ofNat (44032 + 588 * (l.toNat - 4352) + 28 * (v.toNat - 4449)))
    else none
  | [l, v, t] =>
    if 4352 ≤ l.toNat && l.toNat ≤ 4370 && 4449 ≤ v.toNat && v.toNat ≤ 4469 &&
        4520 ≤ t.toNat && t.toNat ≤ 4546 then
      some (Char.ofNat (44032 + 588 * (l.toNat - 4352) + 28 * (v.toNat - 4449) +
        (t.toNat - 4519)))
    else none
  | _ => none

/-- The normalization pipeline exactly as claim C3 words it: lowercase
(without stripping), conversion rules, optional alphabet substitution,
optional numeral expansion, whitespace collapsing, class filter,
decomposition. -/
def prep_text_claim (text : String) (conv_alpha : Bool) (conv_number : Bool) :
    Except PyErr (List Char) := do
  let t1 := applyRules (pyLower text.data)
  let t2 := if conv_alpha then alphaSub t1 else t1
  let t3 ← if conv_number then subNumbers t2 else .ok t2
  decompose_hangul ((collapseWs t3).filter isAllowedIn)

/-- The normalization pipeline as amended: step 1 both lowercases and
strips leading/trailing whitespace; all later steps as claimed. -/
def prep_text_amended (text : String) (conv_alpha : Bool) (conv_number : Bool) :
    Except PyErr (List Char) := do
  let t1 := applyRules (pyStrip (pyLower text.data))
  let t2 := if conv_alpha then alphaSub t1 else t1
  let t3 ← if conv_number then subNumbers t2 else .ok t2
  decompose_hangul ((collapseWs t3).filter isAllowedIn)

/-- The 30 compatibility consonants ㄱ-ㅎ. -/
def compatConsonants : List Char :=
  (List.range 30).map (fun n => Char.ofNat (12593 + n))

/-- Whether an `Except` result is a success. -/
def isOkE {α : Type} (e : Except PyErr α) : Bool :=
  match e with
  | .ok _ => true
  | .error _ => false

/-- The successful value of an `Except` result, defaulting to `[]`. -/
def okOut (e : Except PyErr (List Char)) : List Char :=
  match e with
  | .ok l => l
  | .error _ => []

/-- Claim-side leading consonant of the second naming syllable of an
isolated consonant: ㅇ by default, ㄱ for the irregular name of ㄷ. -/
def second_lead (c : Char) : Nat := if c = 'ㄷ' then 0 else 11

/-- Claim-side naming vowel of the second naming syllable of an isolated
consonant: ㅡ by default, overridden for ㄱ (ㅕ) and ㅅ (ㅗ). -/
def second_vowel (c : Char) : Nat :=
  if c = 'ㄱ' then 6 else if c = 'ㅅ' then 8 else 18

/-! Helper lemmas. -/

theorem char_toNat_ofNat (n : Nat) (h : n < 55296) : (Char.ofNat n).toNat = n := by
  have hv : n.isValidChar := Or.inl (by omega)
  simp [Char.ofNat, hv, Char.toNat, Char.ofNatAux, UInt32.toNat, UInt32.ofNatCore]

theorem char_ofNat_toNat (c : Char) (h : c.toNat < 55296) : Char.ofNat c.toNat = c := by
  have h2 : (Char.ofNat c.toNat).toNat = c.toNat := char_toNat_ofNat _ h
  exact Char.eq_of_val_eq (UInt32.ext h2)

theorem idxE_no_assert {l : List String} {n : Nat} {e : PyErr}
    (h : idxE l n = .error e) : e = .indexError := by
  unfold idxE at h
  cases hg : l.get? n with
  | none => rw [hg] at h; exact (Except.error.injEq _ _).mp h.symm
  | some w => rw [hg] at h; exact absurd h (by simp)

theorem gnod_no_assert {i : Nat} {e : PyErr} (hi : i ≠ 0)
    (h : get_number_of_digits i = .error e) : e = .indexError := by
  unfold get_number_of_digits at h
  rw [if_neg hi] at h
  by_cases h4 : i < 4
  · rw [if_pos h4] at h
    exact idxE_no_assert h
  · rw [if_neg h4] at h
    by_cases hm : i % 4 = 0
    · rw [if_pos hm] at h
      exact idxE_no_assert h
    · rw [if_neg hm] at h
      cases ha : idxE number_of_digits (i % 4 - 1) with
      | error e1 =>
        rw [ha] at h
        simp only [bind, Except.bind] at h
        cases h
        exact idxE_no_assert ha
      | ok a =>
        rw [ha] at h
        simp only [bind, Except.bind] at h
        cases hb : idxE number_of_digits (i / 4 + 2) with
        | error e2 =>
          rw [hb] at h
          simp only [bind, Except.bind] at h
          cases h
          exact idxE_no_assert hb
        | ok b => rw [hb] at h; simp [bind, Except.bind] at h

theorem walk_part_no_assert {i n : Nat} {e : PyErr}
    (h : walk_part i n = .error e) : e = .indexError := by
  unfold walk_part at h
  by_cases h0 : n = 0
  · rw [if_pos h0] at h; exact absurd h (by simp)
  · rw [if_neg h0] at h
    by_cases hi : i = 0
    · rw [if_pos hi] at h
      cases ha : idxE symbols_digits n with
      | error e1 =>
        rw [ha] at h
        simp only [bind, Except.bind] at h
        cases h
        exact idxE_no_assert ha
      | ok a => rw [ha] at h; simp [bind, Except.bind] at h
    · rw [if_neg hi] at h
      by_cases h1 : n = 1
      · rw [if_pos h1] at h
        cases ha : get_number_of_digits i with
        | error e1 =>
          rw [ha] at h
          simp only [bind, Except.bind] at h
          cases h
          exact gnod_no_assert hi ha
        | ok a => rw [ha] at h; simp [bind, Except.bind] at h
      · rw [if_neg h1] at h
        cases ha : idxE symbols_digits n with
        | error e1 =>
          rw [ha] at h
          simp only [bind, Except.bind] at h
          cases h
          exact idxE_no_assert ha
        | ok a =>
          rw [ha] at h
          simp only [bind, Except.bind] at h
          cases hb : get_number_of_digits i with
          | error e2 =>
            rw [hb] at h
            simp only [bind, Except.bind] at h
            cases h
            exact gnod_no_assert hi hb
          | ok b => rw [hb] at h; simp [bind, Except.bind] at h

theorem convert_walk_no_assert {l : List Char} {i : Nat} {e : PyErr}
    (h : convert_walk l i = .error e) : e = .indexError := by
  induction l generalizing i with
  | nil => exact absurd h (by simp [convert_walk])
  | cons c rest ih =>
    unfold convert_walk at h
    cases hp : walk_part i (digitVal c) with
    | error e1 =>
      rw [hp] at h
      simp only [bind, Except.bind] at h
      cases h
      exact walk_part_no_assert hp
    | ok p =>
      rw [hp] at h
      simp only [bind, Except.bind] at h
      cases hw : convert_walk rest (i + 1) with
      | error e2 =>
        rw [hw] at h
        simp only [bind, Except.bind] at h
        cases h
        exact ih hw
      | ok t => rw [hw] at h; simp [bind, Except.bind] at h

/-! Settlement of the claims. -/

/-- C10: within `convert_number` the helper `get_number_of_digits` is only
ever invoked with a strictly positive position index, so while its
`assert i != 0` precondition does fail when the index is 0, no numeral
expansion can trigger it: `convert_number` never results in an assertion
failure, on any input. -/
theorem c10_assert_unreachable :
    get_number_of_digits 0 = .error .assertError ∧
    ∀ s : List Char, convert_number s ≠ .error .assertError := by
  constructor
  · rfl
  · intro s h
    unfold convert_number at h
    by_cases he : (s.dropWhile (· = '0')).reverse.isEmpty
    · rw [if_pos he] at h
      exact absurd (idxE_no_assert h) (by simp)
    · rw [if_neg he] at h
      cases hw : convert_walk (s.dropWhile (· = '0')).reverse 0 with
      | error e1 =>
        rw [hw] at h
        simp only [bind, Except.bind] at h
        cases h
        exact absurd (convert_walk_no_assert hw) (by simp)
      | ok parts => rw [hw] at h; simp [bind, Except.bind] at h

/-- C6 counterexample: the claim states `expand_numeral("11")` returns
digit-word-for-1 concatenated with the tens-magnitude word, i.e. 일 ++ 십;
the code returns 십일 (tens word first, assembly is
most-significant-to-least-significant), which differs. -/
theorem c6_counterexample :
    convert_number ['1', '1'] = .ok "십일".data ∧
    "십일".data ≠ "일".data ++ "십".data := by
  constructor
  · decide
  · decide

/-- C6 as amended: the word for digit 1 is elided exactly at
tens-or-higher positions — `expand_numeral("10")` is the tens-magnitude
word alone (not 일 ++ 십 and not 십 ++ 일), and `expand_numeral("11")` is
the tens-magnitude word concatenated with digit-word-for-1 (the
most-significant contribution first; the ones-place digit word is never
elided). -/
theorem c6_tens_elision :
    convert_number ['1', '0'] = .ok "십".data ∧
    "십".data ≠ "일".data ++ "십".data ∧
    "십".data ≠ "십".data ++ "일".data ∧
    convert_number ['1', '1'] = .ok ("십".data ++ "일".data) := by
  refine ⟨by decide, by decide, by decide, by decide⟩

/-- C4: evaluation of the code at the failing input.  The spec promises
that normalization never raises on any input and any flag setting, but a
17-digit run exhausts the magnitude table inside `get_number_of_digits`
(`number_of_digits[(i // 4) + 2]` with no bounds guard), so `prep_text`
raises `IndexError` when numeral conversion is enabled. -/
theorem c4_long_numeral_raises :
    prep_text "10000000000000000" false true = .error .indexError := by decide

/-- C5: the magnitude-word lookup returns the directly indexed word for
positions 1-3, and for every position at least 4 the combination of the
base word for `i % 4` (empty at 0) with the higher-order magnitude word
for `i / 4`, in groups of four decimal digits. -/
theorem c5_magnitude_lookup (i : Nat) (h1 : 1 ≤ i) :
    (i ≤ 3 → get_number_of_digits i = idxE number_of_digits (i - 1)) ∧
    (4 ≤ i → get_number_of_digits i = magnitude_spec i) := by
  constructor
  · intro h3
    unfold get_number_of_digits
    rw [if_neg (by omega), if_pos (by omega)]
  · intro h4
    unfold get_number_of_digits magnitude_spec base_word
    rw [if_neg (by omega : ¬ i = 0), if_neg (by omega : ¬ i < 4)]
    by_cases hm : i % 4 = 0
    · rw [if_pos hm, hm, if_pos rfl]
      cases hx : idxE number_of_digits (i / 4 + 2) with
      | ok w => simp [bind, Except.bind, hx]
      | error e => simp [bind, Except.bind, hx]
    · rw [if_neg hm, if_neg hm]

/-- C5 witness: position 2 is the directly indexed hundred word, position
5 combines the tens base word with the first higher-order magnitude
word. -/
theorem c5_magnitude_lookup_witness :
    ((1 : Nat) ≤ 2 ∧ get_number_of_digits 2 = idxE number_of_digits 1) ∧
    ((4 : Nat) ≤ 5 ∧ get_number_of_digits 5 = magnitude_spec 5) :=
  ⟨⟨by decide, (c5_magnitude_lookup 2 (by decide)).1 (by decide)⟩,
   ⟨by decide, (c5_magnitude_lookup 5 (by decide)).2 (by decide)⟩⟩

/-- C3 counterexample: the claim lists the exact normalization steps, with
lowercasing but no stripping; the code additionally strips leading and
trailing whitespace (`text.lower().strip()`), so on the input `" a"` the
claimed pipeline keeps a leading space which the code removes. -/
theorem c3_counterexample :
    prep_text " a" false false = .ok ['a'] ∧
    prep_text_claim " a" false false = .ok [' ', 'a'] ∧
    prep_text " a" false false ≠ prep_text_claim " a" false false := by
  refine ⟨by decide, by decide, by decide⟩

/-- C3 as amended: `prep_text` applies exactly these steps in this fixed
order — lowercase and strip leading/trailing whitespace; ordered
conversion-rule substitutions; optional per-letter pronunciation
substitution; optional numeral expansion of maximal digit runs; whitespace
collapsing; character-class filtering; Hangul decomposition — so numeral
expansion happens before filtering and before decomposition. -/
theorem c3_pipeline_order (text : String) (conv_alpha conv_number : Bool) :
    prep_text text conv_alpha conv_number =
      prep_text_amended text conv_alpha conv_number := rfl

theorem ud_roundtrip (n : Nat) (h1 : 44032 ≤ n) (h2 : n ≤ 55203) :
    compose_jamo (unicode_decomp n) = some (Char.ofNat n) ∧
    ((unicode_decomp n).length = 2 ∨ (unicode_decomp n).length = 3) ∧
    ((n - 44032) % 28 = 0 ↔ (unicode_decomp n).length = 2) ∧
    Char.ofNat 4519 ∉ unicode_decomp n := by
  have hLt : (Char.ofNat (4352 + (n - 44032) / 588)).toNat = 4352 + (n - 44032) / 588 :=
    char_toNat_ofNat _ (by omega)
  have hVt : (Char.ofNat (4449 + (n - 44032) % 588 / 28)).toNat
      = 4449 + (n - 44032) % 588 / 28 :=
    char_toNat_ofNat _ (by omega)
  have hNt : (Char.ofNat 4519).toNat = 4519 := char_toNat_ofNat _ (by omega)
  by_cases hz : (n - 44032) % 28 = 0
  · have hl : unicode_decomp n
        = [Char.ofNat (4352 + (n - 44032) / 588),
           Char.ofNat (4449 + (n - 44032) % 588 / 28)] := by
      unfold unicode_decomp
      rw [if_pos hz]
      simp
    rw [hl]
    refine ⟨?_, Or.inl rfl, by simp [hz], ?_⟩
    · simp only [compose_jamo, hLt, hVt]
      rw [if_pos (by simp; omega)]
      have harg : 44032 + 588 * (4352 + (n - 44032) / 588 - 4352) +
          28 * (4449 + (n - 44032) % 588 / 28 - 4449) = n := by omega
      rw [harg]
    · intro hmem
      simp at hmem
      rcases hmem with hmem | hmem
      · have hq := congrArg Char.toNat hmem
        rw [hNt, hLt] at hq
        omega
      · have hq := congrArg Char.toNat hmem
        rw [hNt, hVt] at hq
        omega
  · have hTt : (Char.ofNat (4519 + (n - 44032) % 28)).toNat = 4519 + (n - 44032) % 28 :=
      char_toNat_ofNat _ (by omega)
    have hl : unicode_decomp n
        = [Char.ofNat (4352 + (n - 44032) / 588),
           Char.ofNat (4449 + (n - 44032) % 588 / 28),
           Char.ofNat (4519 + (n - 44032) % 28)] := by
      unfold unicode_decomp
      rw [if_neg hz]
      simp
    rw [hl]
    refine ⟨?_, Or.inr rfl, by simp [hz], ?_⟩
    · simp only [compose_jamo, hLt, hVt, hTt]
      rw [if_pos (by simp; omega)]
      have harg : 44032 + 588 * (4352 + (n - 44032) / 588 - 4352) +
          28 * (4449 + (n - 44032) % 588 / 28 - 4449) +
          (4519 + (n - 44032) % 28 - 4519) = n := by omega
      rw [harg]
    · intro hmem
      simp at hmem
      rcases hmem with hmem | hmem | hmem
      · have hq := congrArg Char.toNat hmem
        rw [hNt, hLt] at hq
        omega
      · have hq := congrArg Char.toNat hmem
        rw [hNt, hVt] at hq
        omega
      · have hq := congrArg Char.toNat hmem
        rw [hNt, hTt] at hq
        omega

/-- C2: decomposing any composed Hangul syllable yields exactly 2 or 3
jamo symbols, equal to the standard Unicode arithmetic decomposition (the
trailing slot suppressed — never emitted — exactly when its index is 0),
and recomposing the emitted jamo through the inverse arithmetic scheme
reconstructs the original syllable. -/
theorem c2_decompose_roundtrip (c : Char) (h1 : 44032 ≤ c.toNat) (h2 : c.toNat ≤ 55203) :
    decompose_hangul [c] = .ok (nfkdChar c) ∧
    nfkdChar c = unicode_decomp c.toNat ∧
    ((nfkdChar c).length = 2 ∨ (nfkdChar c).length = 3) ∧
    ((c.toNat - 44032) % 28 = 0 ↔ (nfkdChar c).length = 2) ∧
    Char.ofNat 4519 ∉ nfkdChar c ∧
    compose_jamo (nfkdChar c) = some c := by
  have hH : isHangulChar c = true := by simp [isHangulChar]; omega
  have hC : isCompatCons c = false := by simp [isCompatCons]; omega
  have hV : isCompatVowel c = false := by simp [isCompatVowel]; omega
  have hg : (44032 ≤ c.toNat && c.toNat ≤ 55203) = true := by simp [h1, h2]
  have hnf : nfkdChar c = unicode_decomp c.toNat := by
    unfold nfkdChar unicode_decomp
    rw [if_pos hg]
  have hdec : decompose_hangul [c] = .ok (nfkdChar c) := by
    unfold decompose_hangul decompose_hangul decomposeChar
    rw [hH, hC, hV]
    simp [nfkdStr, bind, Except.bind]
  obtain ⟨hr, hlen, hif, hnot⟩ := ud_roundtrip c.toNat h1 h2
  rw [char_ofNat_toNat c (by omega)] at hr
  exact ⟨hdec, hnf, by rw [hnf]; exact hlen, by rw [hnf]; exact hif,
    by rw [hnf]; exact hnot, by rw [hnf]; exact hr⟩

/-- C2 witness: the syllable 한 decomposes and recomposes to itself. -/
theorem c2_decompose_roundtrip_witness :
    ((44032 : Nat) ≤ '한'.toNat ∧ '한'.toNat ≤ 55203) ∧
    compose_jamo (nfkdChar '한') = some '한' :=
  ⟨⟨by decide, by decide⟩, (c2_decompose_roundtrip '한' (by decide) (by decide)).2.2.2.2.2⟩

/-- C7 counterexample: the claim says four consonants override the default
naming vowel pattern; in the code exactly three do (ㄱ, ㄷ and ㅅ, lines
69-74), so the count is 3 and not 4. -/
theorem c7_counterexample :
    (compatConsonants.filter fun c => naming_middle c ≠ "ㅣ ㅇㅡ".data).length = 3 ∧
    ¬ (compatConsonants.filter fun c => naming_middle c ≠ "ㅣ ㅇㅡ".data).length = 4 := by
  decide

/-- C7 as amended: exactly three consonants override the default naming
pattern, and for every isolated compatibility jamo, normalization
synthesizes pronounceable syllables before decomposition — a vowel is
composed with the prepended silent consonant ㅇ; a consonant not in the
irregular-name table is composed with the naming vowel ㅣ and a second
syllable carrying the same consonant doubled as its trailing consonant;
an irregular name is substituted verbatim — and the result is a decomposed
jamo sequence of length at least 2, never the unchanged isolated jamo. -/
theorem c7_isolated_jamo :
    (compatConsonants.filter fun c => naming_middle c ≠ "ㅣ ㅇㅡ".data).length = 3 ∧
    ∀ k, k < 51 →
      isOkE (decompose_hangul [Char.ofNat (12593 + k)]) = true ∧
      2 ≤ (okOut (decompose_hangul [Char.ofNat (12593 + k)])).length ∧
      okOut (decompose_hangul [Char.ofNat (12593 + k)]) ≠ [Char.ofNat (12593 + k)] ∧
      (isCompatVowel (Char.ofNat (12593 + k)) = true →
        okOut (decompose_hangul [Char.ofNat (12593 + k)]) =
          nfkdChar (composeSyl 11 ((Char.ofNat (12593 + k)).toNat - 12623) 0)) ∧
      (isCompatCons (Char.ofNat (12593 + k)) = true →
        ((lookupSpecial (Char.ofNat (12593 + k))).isSome = true →
          okOut (decompose_hangul [Char.ofNat (12593 + k)]) =
            nfkdStr ((lookupSpecial (Char.ofNat (12593 + k))).getD "").data) ∧
        (lookupSpecial (Char.ofNat (12593 + k)) = none →
          okOut (decompose_hangul [Char.ofNat (12593 + k)]) =
            nfkdChar (composeSyl ((choIdx (Char.ofNat (12593 + k))).getD 0) 20 0) ++
            nfkdChar (composeSyl (second_lead (Char.ofNat (12593 + k)))
              (second_vowel (Char.ofNat (12593 + k)))
              ((jongIdx (Char.ofNat (12593 + k))).getD 0)))) := by
  constructor
  · decide
  · decide

/-- C7 witness: the consonant ㄱ (code point 12593). -/
theorem c7_isolated_jamo_witness :
    isOkE (decompose_hangul [Char.ofNat (12593 + 0)]) = true ∧
    2 ≤ (okOut (decompose_hangul [Char.ofNat (12593 + 0)])).length ∧
    okOut (decompose_hangul [Char.ofNat (12593 + 0)]) ≠ [Char.ofNat (12593 + 0)] ∧
    (isCompatVowel (Char.ofNat (12593 + 0)) = true →
      okOut (decompose_hangul [Char.ofNat (12593 + 0)]) =
        nfkdChar (composeSyl 11 ((Char.ofNat (12593 + 0)).toNat - 12623) 0)) ∧
    (isCompatCons (Char.ofNat (12593 + 0)) = true →
      ((lookupSpecial (Char.ofNat (12593 + 0))).isSome = true →
        okOut (decompose_hangul [Char.ofNat (12593 + 0)]) =
          nfkdStr ((lookupSpecial (Char.ofNat (12593 + 0))).getD "").data) ∧
      (lookupSpecial (Char.ofNat (12593 + 0)) = none →
        okOut (decompose_hangul [Char.ofNat (12593 + 0)]) =
          nfkdChar (composeSyl ((choIdx (Char.ofNat (12593 + 0))).getD 0) 20 0) ++
          nfkdChar (composeSyl (second_lead (Char.ofNat (12593 + 0)))
            (second_vowel (Char.ofNat (12593 + 0)))
            ((jongIdx (Char.ofNat (12593 + 0))).getD 0)))) :=
  c7_isolated_jamo.2 0 (by decide)

/-- C8 counterexample: with `to_ids` realized by `text_to_sequence`, the
equation fails, because `text_to_sequence` re-normalizes its input: the
vocabulary string "ᄀ ᄀ" (conjoining jamo, space, conjoining jamo) maps to
the single space id, the space maps back to `" "`, and re-normalization
strips the lone space, giving `[]` instead of the original id list. -/
theorem c8_counterexample :
    (∀ c ∈ ("ᄀ ᄀ" : String).data, c ∈ symbols_list) ∧
    text_to_sequence "ᄀ ᄀ" = .ok [0] ∧
    sequence_to_text [0] = " " ∧
    text_to_sequence (sequence_to_text [0]) = .ok [] ∧
    (Except.ok [] : Except PyErr (List Nat)) ≠ .ok [0] := by
  refine ⟨by decide, by decide, by decide, by decide, by decide⟩

theorem sym2id_id2sym {c : Char} {i : Nat} (h : sym2id c = some i) : id2sym i = some c := by
  unfold sym2id at h
  cases hf : symbols_list.enum.reverse.find? (fun p => p.2 = c) with
  | none => rw [hf] at h; simp at h
  | some p =>
    rw [hf] at h
    simp at h
    have hp : p.2 = c := by
      have := List.find?_some hf
      simpa using this
    have hmem : p ∈ symbols_list.enum := by
      have := List.mem_of_find?_eq_some hf
      simpa using this
    have hget : symbols_list.get? p.1 = some p.2 := by
      have hpair : (p.1, p.2) ∈ symbols_list.enum := by simpa using hmem
      simpa using List.mk_mem_enum_iff_getElem?.mp hpair
    unfold id2sym
    rw [← h, hget, hp]

/-- C8 as amended: with `to_ids` realized by the Sequencer's table-lookup
stage (the id mapping of `text_to_sequence` without re-normalization) and
`to_symbols` by `sequence_to_text`, the id conversion is a fixed point
after the first pass for every symbol sequence: unknown symbols can only
be lost on the first conversion. -/
theorem c8_lookup_idempotent (s : List Char) :
    lookup_ids (sequence_to_text (lookup_ids s)).data = lookup_ids s := by
  have hdata : (sequence_to_text (lookup_ids s)).data = (lookup_ids s).filterMap id2sym := rfl
  rw [hdata]
  unfold lookup_ids
  rw [List.filterMap_filterMap, List.filterMap_filterMap]
  have hfun : ∀ c, (sym2id c).bind (fun i => (id2sym i).bind sym2id) = sym2id c := by
    intro c
    cases hs : sym2id c with
    | none => rfl
    | some i =>
      have h2 : id2sym i = some c := sym2id_id2sym hs
      simp [h2, hs]
  simp only [hfun]

theorem decomposeChar_compat_ok :
    ∀ k, k < 51 → isOkE (decomposeChar (Char.ofNat (12593 + k))) = true := by decide

theorem decomposeChar_allowed_ok (c : Char) (h : isAllowedIn c = true) :
    ∃ l, decomposeChar c = .ok l := by
  by_cases hH : isHangulChar c = true
  · by_cases hcompat : 12593 ≤ c.toNat ∧ c.toNat ≤ 12643
    · have hk := decomposeChar_compat_ok (c.toNat - 12593) (by omega)
      have harg : 12593 + (c.toNat - 12593) = c.toNat := by omega
      rw [harg, char_ofNat_toNat c (by omega)] at hk
      cases hdc : decomposeChar c with
      | ok l => exact ⟨l, rfl⟩
      | error e => rw [hdc] at hk; simp [isOkE] at hk
    · have hsyl : 44032 ≤ c.toNat ∧ c.toNat ≤ 55203 := by
        simp [isHangulChar] at hH
        omega
      have hC : isCompatCons c = false := by simp [isCompatCons]; omega
      have hV : isCompatVowel c = false := by simp [isCompatVowel]; omega
      refine ⟨nfkdStr [c], ?_⟩
      unfold decomposeChar
      rw [hH, hC, hV]
      simp
  · refine ⟨[c], ?_⟩
    unfold decomposeChar
    have hH2 : isHangulChar c = false := by
      cases hx : isHangulChar c
      · rfl
      · exact absurd hx hH
    rw [hH2]
    simp

theorem decompose_hangul_ok (l : List Char) (h : ∀ c ∈ l, isAllowedIn c = true) :
    ∃ r, decompose_hangul l = .ok r := by
  induction l with
  | nil => exact ⟨[], rfl⟩
  | cons c rest ih =>
    obtain ⟨h1, hd1⟩ := decomposeChar_allowed_ok c (h c (by simp))
    obtain ⟨r, hr⟩ := ih (fun x hx => h x (by simp [hx]))
    refine ⟨h1 ++ r, ?_⟩
    unfold decompose_hangul
    rw [hd1]
    simp only [bind, Except.bind]
    rw [hr]

/-- C9: on the configured flags, the sequencer in both directions never
raises and silently skips whatever is absent from its table:
`text_to_sequence` returns normally on every input and its ids are exactly
the successful symbol lookups over the normalized text, and
`sequence_to_text` emits exactly the successful id lookups — every emitted
element comes from a successful table lookup, nothing is substituted. -/
theorem c9_sequencer_skips (t : String) (ids : List Nat) :
    (∃ p, prep_text t hps_convert_alpha hps_convert_number = .ok p ∧
      text_to_sequence t = .ok (p.filterMap sym2id) ∧
      ∀ i ∈ p.filterMap sym2id, ∃ c ∈ p, sym2id c = some i) ∧
    ((sequence_to_text ids).data = ids.filterMap id2sym ∧
      ∀ c ∈ (sequence_to_text ids).data, ∃ i ∈ ids, id2sym i = some c) := by
  constructor
  · have hred : prep_text t hps_convert_alpha hps_convert_number =
        decompose_hangul
          ((collapseWs (applyRules (pyStrip (pyLower t.data)))).filter isAllowedIn) := rfl
    obtain ⟨p, hp⟩ := decompose_hangul_ok
      ((collapseWs (applyRules (pyStrip (pyLower t.data)))).filter isAllowedIn)
      (fun c hc => (List.mem_filter.mp hc).2)
    refine ⟨p, by rw [hred]; exact hp, ?_, ?_⟩
    · unfold text_to_sequence
      rw [hred, hp]
      rfl
    · intro i hi
      obtain ⟨c, hc, hm⟩ := List.mem_filterMap.mp hi
      exact ⟨c, hc, hm⟩
  · refine ⟨rfl, ?_⟩
    intro c hc
    obtain ⟨i, hi, hm⟩ := List.mem_filterMap.mp hc
    exact ⟨i, hi, hm⟩

/-- C9 witness: the input "a". -/
theorem c9_sequencer_skips_witness :
    ∃ p, prep_text "a" hps_convert_alpha hps_convert_number = .ok p ∧
      text_to_sequence "a" = .ok (p.filterMap sym2id) ∧
      ∀ i ∈ p.filterMap sym2id, ∃ c ∈ p, sym2id c = some i :=
  (c9_sequencer_skips "a" []).1

theorem contribution_spec_rel (c : Char) (i : Nat) :
    contribution_spec c i = (walk_part i (digitVal c)).map (fun o => o.getD []) := by
  unfold contribution_spec walk_part
  by_cases h0 : digitVal c = 0
  · rw [if_pos h0, if_pos h0]
    rfl
  · rw [if_neg h0, if_neg h0]
    by_cases hi : i = 0
    · rw [if_pos hi, if_pos hi]
      cases ha : idxE symbols_digits (digitVal c) with
      | ok w => simp [bind, Except.bind, ha, Except.map]
      | error e => simp [bind, Except.bind, ha, Except.map]
    · rw [if_neg hi, if_neg hi]
      by_cases h1 : digitVal c = 1
      · rw [if_pos h1, if_pos h1]
        cases ha : get_number_of_digits i with
        | ok w => simp [bind, Except.bind, ha, Except.map]
        | error e => simp [bind, Except.bind, ha, Except.map]
      · rw [if_neg h1, if_neg h1]
        cases ha : idxE symbols_digits (digitVal c) with
        | ok w =>
          cases hb : get_number_of_digits i with
          | ok w2 => simp [bind, Except.bind, ha, hb, Except.map]
          | error e => simp [bind, Except.bind, ha, hb, Except.map]
        | error e => simp [bind, Except.bind, ha, Except.map]
theorem concatAll_append (l : List (List Char)) (w : List Char) :
    concatAll (l ++ [w]) = concatAll l ++ w := by
  induction l with
  | nil => simp [concatAll]
  | cons x rest ih => simp [concatAll] at ih ⊢; rw [ih]
theorem contribution_spec_no_assert {c : Char} {i : Nat} {e : PyErr}
    (h : contribution_spec c i = .error e) : e = .indexError := by
  rw [contribution_spec_rel] at h
  cases hw : walk_part i (digitVal c) with
  | ok o => rw [hw] at h; simp [Except.map] at h
  | error e2 =>
    rw [hw] at h
    simp [Except.map] at h
    rw [← h]
    exact walk_part_no_assert hw
theorem assembleMSB_no_assert {l : List Char} {off : Nat} {e : PyErr}
    (h : assembleMSB l off = .error e) : e = .indexError := by
  induction l generalizing e with
  | nil => simp [assembleMSB] at h
  | cons c rest ih =>
    unfold assembleMSB at h
    cases hc : contribution_spec c (off + rest.length) with
    | error e1 =>
      rw [hc] at h
      simp [bind, Except.bind] at h
      rw [← h]
      exact contribution_spec_no_assert hc
    | ok w =>
      rw [hc] at h
      simp only [bind, Except.bind] at h
      cases ht : assembleMSB rest off with
      | error e2 =>
        rw [ht] at h
        simp at h
        rw [← h]
        exact ih ht
      | ok t => rw [ht] at h; simp at h
theorem assembleMSB_append (xs ys : List Char) (off : Nat) :
    assembleMSB (xs ++ ys) off =
      (assembleMSB xs (off + ys.length)).bind (fun a =>
        (assembleMSB ys off).map (fun b => a ++ b)) := by
  induction xs with
  | nil =>
    simp only [List.nil_append, assembleMSB]
    cases h : assembleMSB ys off with
    | ok b => simp [Except.map, Except.bind, h]
    | error e => simp [Except.map, Except.bind, h]
  | cons x xs ih =>
    simp only [List.cons_append, assembleMSB, List.append_eq]
    rw [List.length_append]
    have harg : off + (xs.length + ys.length) = off + ys.length + xs.length := by omega
    rw [harg, ih]
    cases hc : contribution_spec x (off + ys.length + xs.length) with
    | error e => simp [bind, Except.bind, hc]
    | ok w =>
      cases ha : assembleMSB xs (off + ys.length) with
      | error e => simp [bind, Except.bind, hc, ha]
      | ok a =>
        cases hb : assembleMSB ys off with
        | error e => simp [bind, Except.bind, Except.map, hc, ha, hb]
        | ok b => simp [bind, Except.bind, Except.map, hc, ha, hb]
theorem assembleMSB_single (c : Char) (i : Nat) :
    assembleMSB [c] i = contribution_spec c i := by
  unfold assembleMSB assembleMSB
  cases hc : contribution_spec c (i + List.length []) with
  | ok w =>
    simp at hc
    simp [bind, Except.bind, hc]
  | error e =>
    simp at hc
    simp [bind, Except.bind, hc]
theorem walk_assemble (l : List Char) (i : Nat) :
    (convert_walk l i).map (fun ps => concatAll ps.reverse) = assembleMSB l.reverse i := by
  induction l generalizing i with
  | nil => rfl
  | cons c rest ih =>
    rw [List.reverse_cons, assembleMSB_append rest.reverse [c] i, assembleMSB_single,
      contribution_spec_rel]
    unfold convert_walk
    simp only [List.length_singleton]
    rw [← ih (i + 1)]
    cases hp : walk_part i (digitVal c) with
    | error e1 =>
      cases hw : convert_walk rest (i + 1) with
      | ok ps => simp [bind, Except.bind, Except.map, hp, hw]
      | error e2 =>
        have h1 : e1 = PyErr.indexError := walk_part_no_assert hp
        have h2 : e2 = PyErr.indexError := convert_walk_no_assert hw
        simp [bind, Except.bind, Except.map, hp, hw, h1, h2]
    | ok p =>
      cases hw : convert_walk rest (i + 1) with
      | error e2 => simp [bind, Except.bind, Except.map, hp, hw]
      | ok ps =>
        cases p with
        | none => simp [bind, Except.bind, Except.map, hp, hw]
        | some w =>
          simp [bind, Except.bind, Except.map, hp, hw]
          rw [concatAll_append]
/-- C1: on every run of decimal digit characters the numeral expander
agrees with the specification algorithm: strip leading zeros; return the
zero word exactly once when nothing remains, regardless of input length;
otherwise walk the digits least-significant first, emitting nothing for a
0 digit and the digit word unconditionally at the ones place, and assemble
the per-position contributions most-significant first. -/
theorem c1_matches_spec (s : List Char) (hd : s.all Char.isDigit = true) :
    convert_number s = convert_number_spec s := by
  unfold convert_number convert_number_spec
  by_cases he : (s.dropWhile (· = '0')).isEmpty
  · rw [if_pos (by simpa using he), if_pos he]
  · rw [if_neg (by simpa using he), if_neg he]
    have h := walk_assemble (s.dropWhile (· = '0')).reverse 0
    rw [List.reverse_reverse] at h
    rw [← h]
    cases hw : convert_walk (s.dropWhile (· = '0')).reverse 0 with
    | ok ps => simp [bind, Except.bind, Except.map, hw]
    | error e => simp [bind, Except.bind, Except.map, hw]

/-- C1 witness: the digit run "205". -/
theorem c1_matches_spec_witness :
    (['2', '0', '5'].all Char.isDigit = true) ∧
    convert_number ['2', '0', '5'] = convert_number_spec ['2', '0', '5'] :=
  ⟨by decide, c1_matches_spec ['2', '0', '5'] (by decide)⟩

end TTSDataset
